import Mathlib

/-!
Verification of the grepr line-matching utility (src/lib.rs, src/main.rs)
against its natural-language specification.

The embedding models:
* `linesOf`     — how `find_lines` splits a byte stream via `BufRead::read_line`
                  (each line keeps its trailing `'\n'`; the final line of a
                  stream not ending in `'\n'` has no terminator);
* `findLines`   — the `find_lines` loop, including the possibility that the
                  k-th `read_line` call fails with an I/O error;
* `findFiles`   — the path resolver `find_files`, over an abstract filesystem
                  oracle (metadata query plus `WalkDir` enumeration), including
                  the `break` on a metadata error;
* `runLoop`/`run` — the orchestration in `run`, with stdout/stderr modelled as
                  lists of printed chunks and the `?` on `find_lines` modelled
                  as an early return;
* `exitCode`    — `main`'s exit status for a successfully parsed configuration.

Regex compilation and CLI parsing are out of scope (per the spec); a compiled
pattern is an abstract predicate on lines.
-/

namespace Grepr

/-- A line of the input stream, as the list of its characters (bytes),
including its line terminator when the source produced one. -/
abbrev Line := List Char

/-- Splitting of a character stream into lines, as performed by the repeated
`read_line` calls in `find_lines` (src/lib.rs): each `read_line` returns the
bytes up to and including the next `'\n'`; a final line with no `'\n'` is
returned as-is without a terminator. `'\r'` is an ordinary character, so a
`"\r\n"` terminator stays inside its line. -/
def linesOf : List Char → List Line
  | [] => []
  | c :: rest =>
    if c = '\n' then ['\n'] :: linesOf rest
    else
      match linesOf rest with
      | [] => [[c]]
      | l :: ls => (c :: l) :: ls

/-- A readable stream: its full character content, together with an optional
I/O failure — `some (j, msg)` means the j-th `read_line` call (0-based) fails
with error message `msg` instead of returning bytes. -/
structure ByteStream where
  content : List Char
  failAfter : Option (Nat × String)

/-- Whether the k-th `read_line` call fails. -/
def failsAt : Option (Nat × String) → Nat → Bool
  | some (j, _), k => j == k
  | none, _ => false

/-- The error message carried by a stream failure. -/
def failMsg : Option (Nat × String) → String
  | some (_, m) => m
  | none => ""

/-- The loop of `find_lines` (src/lib.rs): `k` counts the `read_line` calls
made so far, the list argument is the sequence of lines still unread. Each
iteration either hits the read failure (the error is returned, discarding any
lines collected so far), sees end of stream (`bytes == 0`), or reads one line
and keeps it when `invert_match ^ pattern.is_match(line)` holds. -/
def findLinesGo (pred : Line → Bool) (invert : Bool)
    (fa : Option (Nat × String)) : Nat → List Line → Except String (List Line)
  | k, [] =>
    if failsAt fa k then Except.error (failMsg fa) else Except.ok []
  | k, l :: rest =>
    if failsAt fa k then Except.error (failMsg fa)
    else
      match findLinesGo pred invert fa (k + 1) rest with
      | Except.error e => Except.error e
      | Except.ok ls =>
        Except.ok (if Bool.xor invert (pred l) then l :: ls else ls)

/-- The function `find_lines` (src/lib.rs): filter the stream's lines through the
match/invert predicate, propagating a read error immediately. -/
def findLines (s : ByteStream) (pred : Line → Bool) (invert : Bool) :
    Except String (List Line) :=
  findLinesGo pred invert s.failAfter 0 (linesOf s.content)

/-- On a stream with no read failure, the `find_lines` loop returns exactly
the lines satisfying `invert XOR pred`, in order, whatever the call counter. -/
theorem findLinesGo_none (pred : Line → Bool) (invert : Bool) :
    ∀ (L : List Line) (k : Nat),
      findLinesGo pred invert none k L =
        Except.ok (L.filter fun l => Bool.xor invert (pred l))
  | [], k => by simp [findLinesGo, failsAt]
  | l :: rest, k => by
    rw [findLinesGo, findLinesGo_none pred invert rest (k + 1)]
    by_cases h : Bool.xor invert (pred l) = true <;>
      simp [failsAt, List.filter_cons, h]

/-- C3: for every stream content, pattern predicate and invert flag, the line
filter succeeds and its output is exactly the sublist, in stream order, of the
lines l of the stream with `invert XOR pred l = true`: with `invert = false`
it keeps exactly the matching lines, with `invert = true` exactly the
non-matching ones. -/
theorem find_lines_keeps_xor (content : List Char) (pred : Line → Bool)
    (invert : Bool) :
    findLines ⟨content, none⟩ pred invert =
      Except.ok ((linesOf content).filter fun l => Bool.xor invert (pred l)) :=
  findLinesGo_none pred invert (linesOf content) 0

/-- Unfolding of `linesOf` on a newline character. -/
theorem linesOf_newline (rest : List Char) :
    linesOf ('\n' :: rest) = ['\n'] :: linesOf rest := by
  rw [linesOf]; simp

/-- Unfolding of `linesOf` on an ordinary character ending the stream's line
structure. -/
theorem linesOf_other_nil (c : Char) (rest : List Char) (h : c ≠ '\n')
    (h2 : linesOf rest = []) : linesOf (c :: rest) = [[c]] := by
  rw [linesOf]; simp [h, h2]

/-- Unfolding of `linesOf` on an ordinary character: the character is
prepended to the first line of the rest. -/
theorem linesOf_other_cons (c : Char) (rest : List Char) (l : Line)
    (ls : List Line) (h : c ≠ '\n') (h2 : linesOf rest = l :: ls) :
    linesOf (c :: rest) = (c :: l) :: ls := by
  rw [linesOf]; simp [h, h2]

/-- Taking `getLast?` of a cons with nonempty tail is `getLast?` of the tail. -/
theorem getLast?_cons_ne {α : Type} (a : α) (l : List α) (h : l ≠ []) :
    (a :: l).getLast? = l.getLast? := by
  cases l with
  | nil => exact absurd rfl h
  | cons b t => exact List.getLast?_cons_cons

/-- Only the empty stream splits into no lines. -/
theorem linesOf_eq_nil : ∀ s : List Char, linesOf s = [] → s = []
  | [] => fun _ => rfl
  | c :: rest => by
    intro hcontr
    exfalso
    by_cases h : c = '\n'
    · subst h
      rw [linesOf_newline] at hcontr
      exact List.cons_ne_nil _ _ hcontr
    · cases hl : linesOf rest with
      | nil =>
        rw [linesOf_other_nil c rest h hl] at hcontr
        exact List.cons_ne_nil _ _ hcontr
      | cons l ls =>
        rw [linesOf_other_cons c rest l ls h hl] at hcontr
        exact List.cons_ne_nil _ _ hcontr

/-- A stream's lines concatenate back to the stream: line splitting loses no
bytes and invents none. -/
theorem linesOf_flatten : ∀ s : List Char, (linesOf s).flatten = s
  | [] => rfl
  | c :: rest => by
    by_cases h : c = '\n'
    · subst h
      rw [linesOf_newline, List.flatten_cons, linesOf_flatten rest]
      rfl
    · cases hl : linesOf rest with
      | nil =>
        have hr : rest = [] := linesOf_eq_nil rest hl
        subst hr
        rw [linesOf_other_nil c [] h hl]
        rfl
      | cons l ls =>
        have ih := linesOf_flatten rest
        rw [hl, List.flatten_cons] at ih
        rw [linesOf_other_cons c rest l ls h hl, List.flatten_cons,
          List.cons_append, ih]

/-- Line splitting never produces an empty line. -/
theorem linesOf_ne_nil : ∀ (s : List Char), ∀ l ∈ linesOf s, l ≠ []
  | [] => by intro l hl; simp [linesOf] at hl
  | c :: rest => by
    intro l hl
    by_cases h : c = '\n'
    · subst h
      rw [linesOf_newline] at hl
      rcases List.mem_cons.mp hl with rfl | hmem
      · simp
      · exact linesOf_ne_nil rest l hmem
    · cases hlr : linesOf rest with
      | nil =>
        rw [linesOf_other_nil c rest h hlr] at hl
        rcases List.mem_cons.mp hl with rfl | hmem
        · simp
        · simp at hmem
      | cons l' ls =>
        rw [linesOf_other_cons c rest l' ls h hlr] at hl
        rcases List.mem_cons.mp hl with rfl | hmem
        · simp
        · exact linesOf_ne_nil rest l (by rw [hlr]; exact List.mem_cons_of_mem _ hmem)

/-- Every line except possibly the last ends with a newline character. -/
theorem linesOf_dropLast_last :
    ∀ (s : List Char), ∀ l ∈ (linesOf s).dropLast, l.getLast? = some '\n'
  | [] => by intro l hl; simp [linesOf] at hl
  | c :: rest => by
    intro l hl
    by_cases h : c = '\n'
    · subst h
      rw [linesOf_newline] at hl
      cases hlr : linesOf rest with
      | nil => rw [hlr] at hl; simp at hl
      | cons l' ls =>
        rw [hlr, List.dropLast_cons₂] at hl
        rcases List.mem_cons.mp hl with rfl | hmem
        · rfl
        · exact linesOf_dropLast_last rest l (by rw [hlr]; exact hmem)
    · cases hlr : linesOf rest with
      | nil =>
        rw [linesOf_other_nil c rest h hlr] at hl
        simp at hl
      | cons l' ls =>
        rw [linesOf_other_cons c rest l' ls h hlr] at hl
        cases hls : ls with
        | nil => rw [hls] at hl; simp at hl
        | cons l'' ls' =>
          rw [hls, List.dropLast_cons₂] at hl
          rcases List.mem_cons.mp hl with rfl | hmem
          · have h1 : l' ∈ (linesOf rest).dropLast := by
              rw [hlr, hls, List.dropLast_cons₂]
              exact List.mem_cons_self _ _
            have h3 : l' ≠ [] :=
              linesOf_ne_nil rest l' (by rw [hlr]; exact List.mem_cons_self _ _)
            rw [getLast?_cons_ne c l' h3]
            exact linesOf_dropLast_last rest l' h1
          · apply linesOf_dropLast_last rest l
            rw [hlr, hls, List.dropLast_cons₂]
            exact List.mem_cons_of_mem _ hmem

/-- The last line's last character is the stream's last character: the final
line ends with a terminator exactly when the stream does. -/
theorem linesOf_getLast :
    ∀ (s : List Char), ∀ l, (linesOf s).getLast? = some l → l.getLast? = s.getLast?
  | [] => by intro l hl; simp [linesOf] at hl
  | c :: rest => by
    intro l hl
    by_cases h : c = '\n'
    · subst h
      rw [linesOf_newline] at hl
      cases hlr : linesOf rest with
      | nil =>
        have hr : rest = [] := linesOf_eq_nil rest hlr
        subst hr
        rw [hlr] at hl
        simp at hl
        subst hl
        rfl
      | cons l' ls =>
        have hrest : rest ≠ [] := by
          intro hr
          subst hr
          simp [linesOf] at hlr
        rw [hlr, getLast?_cons_ne _ _ (List.cons_ne_nil l' ls)] at hl
        rw [getLast?_cons_ne _ _ hrest]
        exact linesOf_getLast rest l (by rw [hlr]; exact hl)
    · cases hlr : linesOf rest with
      | nil =>
        have hr : rest = [] := linesOf_eq_nil rest hlr
        subst hr
        rw [linesOf_other_nil c [] h hlr] at hl
        simp at hl
        subst hl
        rfl
      | cons l' ls =>
        rw [linesOf_other_cons c rest l' ls h hlr] at hl
        have hrest : rest ≠ [] := by
          intro hr
          subst hr
          simp [linesOf] at hlr
        cases hls : ls with
        | nil =>
          rw [hls] at hl
          simp at hl
          subst hl
          have h2 : l' ≠ [] :=
            linesOf_ne_nil rest l' (by rw [hlr]; exact List.mem_cons_self _ _)
          rw [getLast?_cons_ne c l' h2, getLast?_cons_ne c rest hrest]
          exact linesOf_getLast rest l' (by rw [hlr, hls]; simp)
        | cons l'' ls' =>
          rw [hls, getLast?_cons_ne _ _ (List.cons_ne_nil l'' ls')] at hl
          rw [getLast?_cons_ne c rest hrest]
          apply linesOf_getLast rest l
          rw [hlr, hls, getLast?_cons_ne _ _ (List.cons_ne_nil l'' ls')]
          exact hl

/-- Inverting the flag negates the inclusion predicate of `find_lines`. -/
theorem xor_not_left (b x : Bool) : Bool.xor (!b) x = !(Bool.xor b x) := by
  cases b <;> cases x <;> rfl

/-- The lengths of a filter and of the complementary filter add up to the
length of the list. -/
theorem length_filter_add_not {α : Type} (p : α → Bool) :
    ∀ L : List α,
      (L.filter p).length + (L.filter fun a => !(p a)).length = L.length
  | [] => rfl
  | a :: L => by
    have ih := length_filter_add_not p L
    by_cases h : p a = true
    · simp only [List.filter_cons, h, if_pos, Bool.not_true, if_neg,
        List.length_cons]
      simp [h]
      omega
    · have h' : p a = false := by simpa using h
      simp [List.filter_cons, h']
      omega

/-- C4: with the same pattern and stream, the outputs for an invert flag and
its negation partition the stream's lines: each line of the stream is in
exactly one of the two results, both results draw their lines from the
stream, and their lengths add up to the stream's line count. -/
theorem find_lines_partition (s : List Char) (pred : Line → Bool) (b : Bool)
    (out₁ out₂ : List Line)
    (h₁ : findLines ⟨s, none⟩ pred b = Except.ok out₁)
    (h₂ : findLines ⟨s, none⟩ pred (!b) = Except.ok out₂) :
    (∀ l ∈ linesOf s, (l ∈ out₁ ↔ l ∉ out₂)) ∧
      (∀ l ∈ out₁, l ∈ linesOf s) ∧ (∀ l ∈ out₂, l ∈ linesOf s) ∧
      out₁.length + out₂.length = (linesOf s).length := by
  simp only [findLines] at h₁ h₂
  rw [findLinesGo_none] at h₁ h₂
  injection h₁ with h₁
  injection h₂ with h₂
  subst h₁
  subst h₂
  have hfun : (fun l => Bool.xor (!b) (pred l)) =
      fun l => !(Bool.xor b (pred l)) :=
    funext fun l => xor_not_left b (pred l)
  refine ⟨?_, ?_, ?_, ?_⟩
  · intro l hl
    rw [hfun]
    simp only [List.mem_filter]
    by_cases hx : Bool.xor b (pred l) = true <;> simp [hl, hx]
  · intro l hl
    exact (List.mem_filter.mp hl).1
  · intro l hl
    exact (List.mem_filter.mp hl).1
  · rw [hfun]
    exact length_filter_add_not _ (linesOf s)

/-- Witness for C4 at the stream "a\nb" with the pattern "contains an 'a'". -/
theorem find_lines_partition_witness :
    (∀ l ∈ linesOf ['a', '\n', 'b'],
        (l ∈ [['a', '\n']] ↔ l ∉ ([[('b' : Char)]]))) ∧
      (∀ l ∈ [['a', '\n']], l ∈ linesOf ['a', '\n', 'b']) ∧
      (∀ l ∈ [[('b' : Char)]], l ∈ linesOf ['a', '\n', 'b']) ∧
      ([['a', '\n']] : List Line).length + ([[('b' : Char)]] : List Line).length =
        (linesOf ['a', '\n', 'b']).length :=
  find_lines_partition ['a', '\n', 'b'] (fun l => l.contains 'a') false
    [['a', '\n']] [['b']] rfl rfl

/-- C7: on a stream with no read failure the filter succeeds, its output is a
sublist (exact bytes) of the stream's lines; those lines concatenate back to
the stream, every non-final line ends with its newline terminator, and the
final line ends with the stream's own final character — so a stream not
ending in a newline yields a final line with no terminator. -/
theorem find_lines_exact_bytes (s : List Char) (pred : Line → Bool)
    (invert : Bool) :
    ∃ ls, findLines ⟨s, none⟩ pred invert = Except.ok ls ∧
      List.Sublist ls (linesOf s) ∧
      (linesOf s).flatten = s ∧
      (∀ l ∈ (linesOf s).dropLast, l.getLast? = some '\n') ∧
      (∀ l, (linesOf s).getLast? = some l → l.getLast? = s.getLast?) :=
  ⟨_, findLinesGo_none pred invert (linesOf s) 0, List.filter_sublist _,
    linesOf_flatten s, linesOf_dropLast_last s, linesOf_getLast s⟩

/-- If the j-th `read_line` call fails and the loop reaches it (j is at most
the number of lines), the loop returns the error. -/
theorem findLinesGo_fails (pred : Line → Bool) (invert : Bool) (msg : String) :
    ∀ (L : List Line) (k j : Nat), k ≤ j → j ≤ k + L.length →
      findLinesGo pred invert (some (j, msg)) k L = Except.error msg
  | [], k, j, h1, h2 => by
    have hj : j = k := by simp at h2; omega
    subst hj
    simp [findLinesGo, failsAt, failMsg]
  | l :: L, k, j, h1, h2 => by
    by_cases h : j = k
    · subst h
      simp [findLinesGo, failsAt, failMsg]
    · have hne : (j == k) = false := by simp [h]
      have h1' : k + 1 ≤ j := by omega
      have h2' : j ≤ (k + 1) + L.length := by
        simp only [List.length_cons] at h2
        omega
      rw [findLinesGo]
      simp only [failsAt, hne, if_neg, Bool.false_eq_true, not_false_iff]
      rw [findLinesGo_fails pred invert msg L (k + 1) j h1' h2']

/-- C8: if some `read_line` call of the stream fails before the loop has seen
the end of the stream, `find_lines` returns that read error as its result —
no partial list of previously matched lines is returned. -/
theorem find_lines_read_error (content : List Char) (pred : Line → Bool)
    (invert : Bool) (j : Nat) (msg : String)
    (h : j ≤ (linesOf content).length) :
    findLines ⟨content, some (j, msg)⟩ pred invert = Except.error msg :=
  findLinesGo_fails pred invert msg (linesOf content) 0 j (Nat.zero_le j)
    (by simpa using h)

/-- Witness for C8: a stream "a\n" whose second read fails with "boom". -/
theorem find_lines_read_error_witness :
    1 ≤ (linesOf ['a', '\n']).length ∧
      findLines ⟨['a', '\n'], some (1, "boom")⟩ (fun _ => true) false =
        Except.error ("boom") :=
  ⟨by decide,
    find_lines_read_error ['a', '\n'] (fun _ => true) false 1 "boom"
      (by decide)⟩

/-- Lines returned by the `find_lines` loop all come from the unread input. -/
theorem findLinesGo_ok_subset (pred : Line → Bool) (invert : Bool)
    (fa : Option (Nat × String)) :
    ∀ (L : List Line) (k : Nat) (ls : List Line),
      findLinesGo pred invert fa k L = Except.ok ls → ∀ l ∈ ls, l ∈ L
  | [], k, ls => by
    intro hok l hl
    rw [findLinesGo] at hok
    split at hok
    · cases hok
    · injection hok with hok
      subst hok
      simp at hl
  | a :: L, k, ls => by
    intro hok l hl
    rw [findLinesGo] at hok
    split at hok
    · cases hok
    · cases hrec : findLinesGo pred invert fa (k + 1) L with
      | error e => rw [hrec] at hok; cases hok
      | ok ls' =>
        rw [hrec] at hok
        injection hok with hok
        subst hok
        by_cases hx : Bool.xor invert (pred a) = true
        · rw [if_pos hx] at hl
          rcases List.mem_cons.mp hl with rfl | hmem
          · exact List.mem_cons_self _ _
          · exact List.mem_cons_of_mem _
              (findLinesGo_ok_subset pred invert fa L (k + 1) ls' hrec l hmem)
        · rw [if_neg hx] at hl
          exact List.mem_cons_of_mem _
            (findLinesGo_ok_subset pred invert fa L (k + 1) ls' hrec l hl)

/-- C10: whenever `find_lines` succeeds, every returned line is non-empty,
and the empty stream (a reader already at end of file) yields a successful
empty result, never an empty-string entry. -/
theorem find_lines_lines_nonempty (s : ByteStream) (pred : Line → Bool)
    (invert : Bool) (ls : List Line)
    (h : findLines s pred invert = Except.ok ls) :
    (∀ l ∈ ls, l ≠ []) ∧
      findLines ⟨[], none⟩ pred invert = Except.ok [] := by
  constructor
  · intro l hl
    have h' : findLinesGo pred invert s.failAfter 0 (linesOf s.content) =
        Except.ok ls := h
    exact linesOf_ne_nil s.content l
      (findLinesGo_ok_subset pred invert s.failAfter (linesOf s.content) 0 ls
        h' l hl)
  · exact findLinesGo_none pred invert [] 0

/-- Witness for C10 at the one-line stream "a" and the empty stream. -/
theorem find_lines_lines_nonempty_witness :
    (∀ l ∈ [[('a' : Char)]], l ≠ []) ∧
      findLines ⟨[], none⟩ (fun _ => true) false = Except.ok [] :=
  find_lines_lines_nonempty ⟨['a'], none⟩ (fun _ => true) false [['a']] rfl

/-- The kind of filesystem object `fs::metadata` reports: a regular file, a
directory, or anything else (device node, broken symlink target, ...). -/
inductive FileType : Type
  | file : FileType
  | dir : FileType
  | other : FileType
deriving DecidableEq

/-- The filesystem as seen by `find_files` (src/lib.rs): `meta p` is the
result of `fs::metadata(p)` (an error carries the system error text), and
`walk p` is the list of regular-file paths that a `WalkDir` traversal rooted
at `p` yields, in traversal order, with erroring and non-file entries already
dropped (the code flattens errors away and filters on `is_file`). -/
structure FS where
  meta : String → Except String FileType
  walk : String → List String

/-- The resolver `find_files` (src/lib.rs): resolve the input path strings into per-path
results. The sentinel "-" succeeds immediately; otherwise the path's metadata
is queried: a regular file succeeds, a directory without `recursive` fails
with "<path> is a directory", anything else is expanded by `WalkDir`; a
metadata error pushes a failure entry and then `break`s out of the loop. -/
def findFiles (fs : FS) : List String → Bool → List (Except String String)
  | [], _ => []
  | p :: rest, recursive =>
    if p = "-" then Except.ok p :: findFiles fs rest recursive
    else
      match fs.meta p with
      | Except.ok ft =>
        if ft = FileType.file then Except.ok p :: findFiles fs rest recursive
        else if recursive = false ∧ ft = FileType.dir then
          Except.error (p ++ " is a directory") :: findFiles fs rest recursive
        else
          (fs.walk p).map Except.ok ++ findFiles fs rest recursive
      | Except.error e => [Except.error (p ++ ": " ++ e)]

/-- C5: the sentinel "-" always resolves to exactly one success entry
carrying "-" itself, for every recursive flag and every filesystem state, and
without the filesystem being consulted for it: the entry and the processing
of the remaining paths are the same for any two filesystems. -/
theorem find_files_sentinel (fs fs₂ : FS) (rest : List String)
    (recursive : Bool) :
    findFiles fs ("-" :: rest) recursive =
        Except.ok ("-") :: findFiles fs rest recursive ∧
      findFiles fs ["-"] recursive = [Except.ok ("-")] ∧
      findFiles fs ["-"] recursive = findFiles fs₂ ["-"] recursive := by
  refine ⟨?_, ?_, ?_⟩ <;> simp [findFiles]

/-- C6: a directory input without the recursive flag contributes exactly one
entry: a failure with message "<path> is a directory"; resolution of the
remaining paths continues unaffected. -/
theorem find_files_dir_nonrecursive (fs : FS) (p : String)
    (rest : List String) (h₁ : p ≠ "-")
    (h₂ : fs.meta p = Except.ok FileType.dir) :
    findFiles fs (p :: rest) false =
      Except.error (p ++ " is a directory") :: findFiles fs rest false := by
  rw [findFiles, if_neg h₁, h₂]
  simp

/-- Witness for C6: a filesystem where "d" is a directory. -/
theorem find_files_dir_nonrecursive_witness :
    ("d" : String) ≠ "-" ∧
      findFiles
          ⟨fun q => if q = "d" then Except.ok FileType.dir
            else Except.error ("nope"), fun _ => []⟩
          ["d"] false =
        Except.error ("d" ++ " is a directory") ::
          findFiles
            ⟨fun q => if q = "d" then Except.ok FileType.dir
              else Except.error ("nope"), fun _ => []⟩
            [] false :=
  ⟨by decide,
    find_files_dir_nonrecursive
      ⟨fun q => if q = "d" then Except.ok FileType.dir
        else Except.error ("nope"), fun _ => []⟩
      "d" [] (by decide) rfl⟩

/-- A filesystem on which only the path "good" exists (a regular file); any
other path's metadata query fails. -/
def exFS : FS :=
  ⟨fun p => if p = "good" then Except.ok FileType.file
    else Except.error ("no such file or directory"), fun _ => []⟩

/-- C1 counterexample: on `exFS`, resolving ["bad", "good"] non-recursively
stops at the failing path "bad" — the result is not the failure entry
followed by the resolution of the remaining path "good", because the `break`
in `find_files` abandons the rest of the list. -/
theorem find_files_error_not_independent :
    ¬ findFiles exFS ["bad", "good"] false =
        Except.error ("bad" ++ ": " ++ "no such file or directory") ::
          findFiles exFS ["good"] false := by
  intro h
  have hlen := congrArg List.length h
  simp [findFiles, exFS] at hlen

/-- C1 amended: a path whose metadata query fails yields a single failure
entry "<path>: <error>" and aborts resolution: no entries are produced for
any subsequent path (the loop `break`s). -/
theorem find_files_error_aborts (fs : FS) (p e : String)
    (rest : List String) (recursive : Bool) (h₁ : p ≠ "-")
    (h₂ : fs.meta p = Except.error e) :
    findFiles fs (p :: rest) recursive =
      [Except.error (p ++ ": " ++ e)] := by
  rw [findFiles, if_neg h₁, h₂]

/-- Witness for the amended C1: on `exFS`, the failing path "bad" swallows
the subsequent resolvable path "good". -/
theorem find_files_error_aborts_witness :
    ("bad" : String) ≠ "-" ∧
      findFiles exFS ["bad", "good"] false =
        [Except.error ("bad" ++ ": " ++ "no such file or directory")] :=
  ⟨by decide,
    find_files_error_aborts exFS ("bad") ("no such file or directory") ["good"]
      false (by decide) rfl⟩

/-- The world `run` (src/lib.rs) interacts with: the filesystem used by
`find_files`, the standard-input stream, and the stream `File::open` yields
for each concrete filename (or the open error for it). -/
structure World where
  fs : FS
  stdinStream : ByteStream
  fileStream : String → Except String ByteStream

/-- The function `open` (src/lib.rs): the sentinel "-" yields the standard-input reader
and never fails; any other name is opened as a file. -/
def openTarget (w : World) (name : String) : Except String ByteStream :=
  if name = "-" then Except.ok w.stdinStream else w.fileStream name

/-- The configuration `run` receives (the `Cli` of src/lib.rs, with the
compiled regex abstracted into a predicate on lines and the
case-insensitivity flag already folded into it; CLI parsing and regex
compilation are out of scope per the spec). -/
structure Cfg where
  pred : Line → Bool
  files : List String
  recursive : Bool
  count : Bool
  invert : Bool

/-- Observable outcome of `run`: the chunks printed to standard output (one
entry per `print!`/`println!` call, a `println!` chunk ending in a newline),
the lines printed to standard error (one entry per `eprintln!` call, terminal
newline implicit), and `run`'s return value. -/
structure RunOut where
  stdout : List String
  stderr : List String
  result : Except String Unit

/-- The per-target loop of `run` (src/lib.rs): a resolver failure is printed
to stderr and the loop continues; an open failure is printed as
"<path>: <error>" and the loop continues; a `find_lines` error is returned
from `run` at once by the `?` operator (nothing further runs); a successful
filter prints counts or lines, prefixed with "<path>:" exactly when
`file_count > 1`. -/
def runLoop (w : World) (pred : Line → Bool) (invert count : Bool)
    (fileCount : Nat) : List (Except String String) → RunOut
  | [] => ⟨[], [], Except.ok ()⟩
  | Except.error e :: rest =>
    let r := runLoop w pred invert count fileCount rest
    ⟨r.stdout, e :: r.stderr, r.result⟩
  | Except.ok fn :: rest =>
    match openTarget w fn with
    | Except.error e =>
      let r := runLoop w pred invert count fileCount rest
      ⟨r.stdout, (fn ++ ": " ++ e) :: r.stderr, r.result⟩
    | Except.ok st =>
      match findLines st pred invert with
      | Except.error e => ⟨[], [], Except.error e⟩
      | Except.ok lines =>
        let out :=
          if fileCount > 1 then
            if count then [fn ++ ":" ++ toString lines.length ++ "\n"]
            else lines.map fun l => fn ++ ":" ++ String.mk l
          else
            if count then [toString lines.length ++ "\n"]
            else lines.map fun l => String.mk l
        let r := runLoop w pred invert count fileCount rest
        ⟨out ++ r.stdout, r.stderr, r.result⟩

/-- The function `run` (src/lib.rs): resolve every configured path once, remember the
total number of resolved entries, and process each entry in order. -/
def run (w : World) (cfg : Cfg) : RunOut :=
  runLoop w cfg.pred cfg.invert cfg.count
    (findFiles w.fs cfg.files cfg.recursive).length
    (findFiles w.fs cfg.files cfg.recursive)

/-- The function `main` (src/main.rs), for a configuration that parsed successfully: exit
status 0 when `run` returns Ok, 1 when it returns an error. -/
def exitCode (w : World) (cfg : Cfg) : Nat :=
  match (run w cfg).result with
  | Except.ok _ => 0
  | Except.error _ => 1

/-- Whether processing a resolved entry avoids a mid-stream read error: true
for failure entries, unopenable targets, and targets whose filtering
succeeds; false exactly when `find_lines` returns an error for it. -/
def entryReadOk (w : World) (pred : Line → Bool) (invert : Bool) :
    Except String String → Bool
  | Except.error _ => true
  | Except.ok fn =>
    match openTarget w fn with
    | Except.error _ => true
    | Except.ok st =>
      match findLines st pred invert with
      | Except.error _ => false
      | Except.ok _ => true

/-- Spec-side description of the stdout a single resolved entry contributes
(spec §4.3), stated for the refinement claim C9 in the spec's words: a
failure entry or an unopenable or unreadable target prints nothing to
stdout; otherwise, when the total number of resolved targets exceeds one,
count mode writes "<path>:<count>" and line mode writes each matched line
prefixed with "<path>:", while with at most one target the count or the
lines are written unprefixed. -/
def specTargetOut (w : World) (pred : Line → Bool) (invert count : Bool)
    (fileCount : Nat) : Except String String → List String
  | Except.error _ => []
  | Except.ok fn =>
    match openTarget w fn with
    | Except.error _ => []
    | Except.ok st =>
      match findLines st pred invert with
      | Except.error _ => []
      | Except.ok lines =>
        if fileCount > 1 then
          if count then [fn ++ ":" ++ toString lines.length ++ "\n"]
          else lines.map fun l => fn ++ ":" ++ String.mk l
        else
          if count then [toString lines.length ++ "\n"]
          else lines.map fun l => String.mk l

/-- When no entry hits a read error, the loop's stdout is the concatenation
of the per-entry spec-side outputs. -/
theorem runLoop_stdout_spec (w : World) (pred : Line → Bool)
    (invert count : Bool) (n : Nat) :
    ∀ entries : List (Except String String),
      entries.all (entryReadOk w pred invert) = true →
      (runLoop w pred invert count n entries).stdout =
        (entries.map (specTargetOut w pred invert count n)).flatten
  | [] => by intro _; simp [runLoop]
  | ent :: rest => by
    intro hall
    rw [List.all_cons, Bool.and_eq_true] at hall
    have ih := runLoop_stdout_spec w pred invert count n rest hall.2
    cases ent with
    | error e => simp [runLoop, specTargetOut, ih]
    | ok fn =>
      cases ho : openTarget w fn with
      | error e => simp [runLoop, specTargetOut, ho, ih]
      | ok st =>
        cases hf : findLines st pred invert with
        | error e =>
          exfalso
          have h1 := hall.1
          simp [entryReadOk, ho, hf] at h1
        | ok lines => simp [runLoop, specTargetOut, ho, hf, ih]

/-- C9: whenever no target hits a mid-stream read error, `run`'s stdout is
exactly the per-entry output described by the spec, with per-file prefixes
used exactly when the total number of resolved entries — successes plus
failures — is greater than one: "<path>:<count>" or "<path>:"-prefixed lines
then, the bare "<count>" or unprefixed lines with a single resolved entry. -/
theorem run_multi_target_marking (w : World) (cfg : Cfg)
    (h : (findFiles w.fs cfg.files cfg.recursive).all
        (entryReadOk w cfg.pred cfg.invert) = true) :
    (run w cfg).stdout =
      ((findFiles w.fs cfg.files cfg.recursive).map
        (specTargetOut w cfg.pred cfg.invert cfg.count
          (findFiles w.fs cfg.files cfg.recursive).length)).flatten :=
  runLoop_stdout_spec w cfg.pred cfg.invert cfg.count
    (findFiles w.fs cfg.files cfg.recursive).length
    (findFiles w.fs cfg.files cfg.recursive) h

/-- A world with two regular files "f1" and "f2", both reading "hi\n". -/
def c9World : World :=
  ⟨⟨fun p => if p = "f1" ∨ p = "f2" then Except.ok FileType.file
      else Except.error ("e"), fun _ => []⟩,
    ⟨[], none⟩, fun _ => Except.ok ⟨['h', 'i', '\n'], none⟩⟩

/-- A configuration searching "f1" and "f2" with an always-matching pattern. -/
def c9Cfg : Cfg := ⟨fun _ => true, ["f1", "f2"], false, false, false⟩

/-- Witness for C9 on a two-file world with no read errors. -/
theorem run_multi_target_marking_witness :
    (findFiles c9World.fs c9Cfg.files c9Cfg.recursive).all
        (entryReadOk c9World c9Cfg.pred c9Cfg.invert) = true ∧
      (run c9World c9Cfg).stdout =
        ((findFiles c9World.fs c9Cfg.files c9Cfg.recursive).map
          (specTargetOut c9World c9Cfg.pred c9Cfg.invert c9Cfg.count
            (findFiles c9World.fs c9Cfg.files c9Cfg.recursive).length)).flatten :=
  ⟨rfl, run_multi_target_marking c9World c9Cfg rfl⟩

/-- A world with two regular files "a" and "b"; reading "a" fails at the
first `read_line` call with "io error", while "b" reads "x\n" cleanly. -/
def c2World : World :=
  ⟨⟨fun p => if p = "a" ∨ p = "b" then Except.ok FileType.file
      else Except.error ("missing"), fun _ => []⟩,
    ⟨[], none⟩,
    fun p => if p = "a" then Except.ok ⟨['x', '\n'], some (0, "io error")⟩
      else Except.ok ⟨['x', '\n'], none⟩⟩

/-- A configuration searching "a" then "b" with an always-matching pattern. -/
def c2Cfg : Cfg := ⟨fun _ => true, ["a", "b"], false, false, false⟩

/-- C2 counterexample: a read error on the first target "a" makes the whole
run fail — the exit status is nonzero, the error becomes `run`'s result, and
the remaining target "b" produces no output at all, contradicting the claim
that the run continues with remaining targets and exits with code 0. -/
theorem run_read_error_not_nonfatal :
    exitCode c2World c2Cfg ≠ 0 ∧ (run c2World c2Cfg).stdout = [] ∧
      (run c2World c2Cfg).result = Except.error ("io error") :=
  ⟨by decide, rfl, rfl⟩

/-- C2 amended: an I/O read error while filtering a target is fatal: `run`
returns that error immediately via the `?` operator, the failing target and
every remaining target produce no further output on either channel, and
`main` therefore exits nonzero; output already printed for earlier targets
is unaffected (it was flushed before the failure). -/
theorem run_read_error_fatal (w : World) (pred : Line → Bool)
    (invert count : Bool) (fileCount : Nat) (fn : String)
    (rest : List (Except String String)) (st : ByteStream) (e : String)
    (h₁ : openTarget w fn = Except.ok st)
    (h₂ : findLines st pred invert = Except.error e) :
    runLoop w pred invert count fileCount (Except.ok fn :: rest) =
      ⟨[], [], Except.error e⟩ := by
  simp [runLoop, h₁, h₂]

/-- Witness for the amended C2 on the `c2World` run. -/
theorem run_read_error_fatal_witness :
    openTarget c2World ("a") = Except.ok ⟨['x', '\n'], some (0, "io error")⟩ ∧
      runLoop c2World (fun _ => true) false false 2
          [Except.ok ("a"), Except.ok ("b")] = ⟨[], [], Except.error ("io error")⟩ :=
  ⟨rfl,
    run_read_error_fatal c2World (fun _ => true) false false 2 "a"
      [Except.ok ("b")] ⟨['x', '\n'], some (0, "io error")⟩ "io error" rfl rfl⟩

end Grepr
